import Mathlib

/-!
Verification of the cortex-tenant request processor (processor.go).

The Go source is shallowly embedded: series, labels and write requests are
plain inductive data; the Go map used for partitioning is an association
list with Go-map lookup/insert semantics; external collaborators (snappy,
protobuf, the HTTP client) are parameters of the embedded functions;
the sync.Pool lease/release pairs (including those performed by defer)
are recorded as explicit event lists; the atomic draining flag is a Nat
threaded through an operation trace.
-/

namespace CortexTenant

/-- A label is a (name, value) string pair, mirroring prompb.Label. -/
structure Label where
  Name : String
  Value : String
deriving DecidableEq

/-- A sample, mirroring prompb.Sample. The float64 value payload is opaque
to the processor, so it is represented by an integer stand-in. -/
structure Sample where
  Timestamp : Int
  Value : Int
deriving DecidableEq

/-- One time series: labels plus samples, mirroring prompb.TimeSeries. -/
structure TimeSeries where
  Labels : List Label
  Samples : List Sample
deriving DecidableEq

/-- A write request is an ordered sequence of series, mirroring
prompb.WriteRequest. -/
structure WriteRequest where
  Timeseries : List TimeSeries
deriving DecidableEq

/-- The tenant-related part of the configuration. -/
structure TenantCfg where
  Label : String
  Header : String
  Default : String
  LabelRemove : Bool

/-- The part of the configuration the processor reads. -/
structure Config where
  Tenant : TenantCfg
  Target : String

/-- The per-tenant dispatch result, mirroring the Go struct result
(code int, body, err). An error is represented by its message. -/
structure result where
  code : Nat
  body : String
  err : Option String
deriving DecidableEq

/-- First label (by original order) whose name matches, with its index and
value: the embedding of the search loop in processTimeseries, which breaks
at the first match. -/
def findLabel (name : String) : List Label → Option (Nat × String)
  | [] => none
  | l :: ls =>
    if l.Name = name then some (0, l.Value)
    else
      match findLabel name ls with
      | none => none
      | some (i, v) => some (i + 1, v)

/-- Swap-with-last removal: ts.Labels[labelIdx] = ts.Labels[l-1] followed by
truncation ts.Labels = ts.Labels[:l-1]. -/
def removeLabelAt (ls : List Label) (i : Nat) : List Label :=
  (ls.set i (ls.getLastD ⟨"", ""⟩)).dropLast

/-- Embedding of processTimeseries: returns the tenant key and the
(possibly mutated) series. The Go code returns the configured default both
when no label matches and when the first matching label has an empty value
(tenant == ""), and in both of those cases performs no removal. -/
def processTimeseries (cfg : Config) (ts : TimeSeries) : String × TimeSeries :=
  match findLabel cfg.Tenant.Label ts.Labels with
  | none => (cfg.Tenant.Default, ts)
  | some (i, v) =>
    if v = "" then (cfg.Tenant.Default, ts)
    else if cfg.Tenant.LabelRemove then
      (v, TimeSeries.mk (removeLabelAt ts.Labels i) ts.Samples)
    else (v, ts)

theorem findLabel_eq_none_iff (name : String) (ls : List Label) :
    findLabel name ls = none ↔ ∀ l ∈ ls, l.Name ≠ name := by
  induction ls with
  | nil => simp [findLabel]
  | cons a tl ih =>
    by_cases h : a.Name = name
    · simp [findLabel, h]
    · cases hf : findLabel name tl with
      | none =>
        simp only [findLabel, h, if_false, hf]
        simp only [List.mem_cons]
        constructor
        · intro _ l hl
          rcases hl with rfl | hl
          · exact h
          · exact (ih.mp hf) l hl
        · intro _; trivial
      | some p =>
        simp only [findLabel, h, if_false, hf]
        constructor
        · intro hc; exact absurd hc (by simp)
        · intro hall
          exfalso
          have : findLabel name tl = none := ih.mpr (fun l hl => hall l (List.mem_cons_of_mem a hl))
          rw [this] at hf; exact absurd hf (by simp)

theorem findLabel_some_spec (name : String) (ls : List Label) (i : Nat) (v : String)
    (h : findLabel name ls = some (i, v)) :
    ∃ hi : i < ls.length, (ls.get ⟨i, hi⟩).Name = name ∧ (ls.get ⟨i, hi⟩).Value = v := by
  induction ls generalizing i with
  | nil => simp [findLabel] at h
  | cons a tl ih =>
    by_cases ha : a.Name = name
    · simp only [findLabel, ha, if_true, Option.some.injEq, Prod.mk.injEq] at h
      obtain ⟨h1, h2⟩ := h
      subst h1; subst h2
      exact ⟨Nat.succ_pos _, ha, rfl⟩
    · simp only [findLabel, ha, if_false] at h
      cases hf : findLabel name tl with
      | none => rw [hf] at h; exact absurd h (by simp)
      | some p =>
        rw [hf] at h
        obtain ⟨j, w⟩ := p
        simp only [Option.some.injEq, Prod.mk.injEq] at h
        obtain ⟨h1, h2⟩ := h
        subst h1; subst h2
        obtain ⟨hj, hn, hv⟩ := ih j hf
        exact ⟨Nat.succ_lt_succ hj, hn, hv⟩

/-- Claim C6: a series containing no label whose name equals the configured
tenant label name is assigned the configured default tenant key. -/
theorem default_tenant_when_label_absent (cfg : Config) (ts : TimeSeries)
    (h : ∀ l ∈ ts.Labels, l.Name ≠ cfg.Tenant.Label) :
    (processTimeseries cfg ts).1 = cfg.Tenant.Default := by
  unfold processTimeseries
  rw [(findLabel_eq_none_iff cfg.Tenant.Label ts.Labels).mpr h]

/-- Witness for C6 at a concrete series carrying no tenant label. -/
theorem default_tenant_when_label_absent_witness :
    (processTimeseries
      (Config.mk (TenantCfg.mk "tenant" "X-Scope-OrgID" "deflt" true) "http://target")
      (TimeSeries.mk [Label.mk "job" "api"] [])).1 = "deflt" := by
  exact default_tenant_when_label_absent
    (Config.mk (TenantCfg.mk "tenant" "X-Scope-OrgID" "deflt" true) "http://target")
    (TimeSeries.mk [Label.mk "job" "api"] [])
    (by decide)

/-- Claim C10: when the first label carrying the configured tenant label
name has an empty value, processTimeseries returns the configured default
and leaves the series untouched, even when label removal is enabled. -/
theorem empty_tenant_value_default_no_removal (cfg : Config) (ts : TimeSeries) (i : Nat)
    (h : findLabel cfg.Tenant.Label ts.Labels = some (i, "")) :
    processTimeseries cfg ts = (cfg.Tenant.Default, ts) := by
  unfold processTimeseries
  rw [h]
  simp

/-- Witness for C10: a series whose tenant label has an empty value, with
removal enabled, is left unchanged and assigned the default tenant. -/
theorem empty_tenant_value_default_no_removal_witness :
    processTimeseries
      (Config.mk (TenantCfg.mk "tenant" "X-Scope-OrgID" "deflt" true) "http://target")
      (TimeSeries.mk [Label.mk "tenant" "", Label.mk "job" "api"] [])
      = ("deflt", TimeSeries.mk [Label.mk "tenant" "", Label.mk "job" "api"] []) := by
  exact empty_tenant_value_default_no_removal
    (Config.mk (TenantCfg.mk "tenant" "X-Scope-OrgID" "deflt" true) "http://target")
    (TimeSeries.mk [Label.mk "tenant" "", Label.mk "job" "api"] []) 0 (by decide)

theorem findLabel_some_getElem (name : String) (ls : List Label) (i : Nat) (v : String)
    (h : findLabel name ls = some (i, v)) :
    ∃ li, ls[i]? = some li ∧ li.Name = name ∧ li.Value = v := by
  obtain ⟨hi, hn, hv⟩ := findLabel_some_spec name ls i v h
  refine ⟨ls.get ⟨i, hi⟩, ?_, hn, hv⟩
  rw [List.getElem?_eq_getElem hi]
  simp [List.get_eq_getElem]

theorem countP_le_one_unique (p : Label → Bool) :
    ∀ (ls : List Label), ls.countP p ≤ 1 →
      ∀ (i j : Nat) (li lj : Label), i ≠ j → ls[i]? = some li → ls[j]? = some lj →
        p li = true → p lj = false := by
  intro ls
  induction ls with
  | nil =>
    intro _ i j li lj _ hli
    simp at hli
  | cons a tl ih =>
    intro hc i j li lj hne hli hlj hpli
    rw [List.countP_cons] at hc
    cases i with
    | zero =>
      cases j with
      | zero => exact absurd rfl hne
      | succ j' =>
        rw [List.getElem?_cons_zero] at hli
        rw [List.getElem?_cons_succ] at hlj
        have ha : a = li := by injection hli
        subst ha
        rw [hpli, if_pos rfl] at hc
        have h0 : tl.countP p = 0 := by omega
        have hmem : lj ∈ tl := List.mem_iff_getElem?.mpr ⟨j', hlj⟩
        exact Bool.eq_false_iff.mpr ((List.countP_eq_zero.mp h0) lj hmem)
    | succ i' =>
      cases j with
      | zero =>
        rw [List.getElem?_cons_succ] at hli
        rw [List.getElem?_cons_zero] at hlj
        have ha : a = lj := by injection hlj
        rw [← ha]
        by_cases hpa : p a = true
        · rw [hpa, if_pos rfl] at hc
          have h0 : tl.countP p = 0 := by omega
          have hmem : li ∈ tl := List.mem_iff_getElem?.mpr ⟨i', hli⟩
          exact absurd hpli ((List.countP_eq_zero.mp h0) li hmem)
        · exact Bool.eq_false_iff.mpr hpa
      | succ j' =>
        rw [List.getElem?_cons_succ] at hli
        rw [List.getElem?_cons_succ] at hlj
        have hc' : tl.countP p ≤ 1 := Nat.le_trans (Nat.le_add_right _ _) hc
        exact ih hc' i' j' li lj (by omega) hli hlj hpli

theorem removeLabelAt_length (ls : List Label) (i : Nat) :
    (removeLabelAt ls i).length = ls.length - 1 := by
  simp [removeLabelAt]

theorem removeLabelAt_no_match (ls : List Label) (i : Nat) (t : String) (li : Label)
    (hli : ls[i]? = some li) (hname : li.Name = t)
    (hc : ls.countP (fun l => decide (l.Name = t)) ≤ 1) :
    ∀ l ∈ removeLabelAt ls i, l.Name ≠ t := by
  intro l hl
  obtain ⟨n, hn⟩ := List.mem_iff_getElem?.mp hl
  rw [removeLabelAt, List.getElem?_dropLast] at hn
  by_cases hlt : n < (ls.set i (ls.getLastD ⟨"", ""⟩)).length - 1
  case neg =>
    rw [if_neg hlt] at hn
    exact absurd hn (by simp)
  rw [if_pos hlt] at hn
  have hlen : (ls.set i (ls.getLastD ⟨"", ""⟩)).length = ls.length := by simp
  rw [hlen] at hlt
  have hilen : i < ls.length := by
    rcases List.getElem?_eq_some_iff.mp hli with ⟨h, _⟩
    exact h
  by_cases hin : i = n
  · subst hin
    rw [List.getElem?_set_self (by omega)] at hn
    injection hn with hl2
    have h8 : ls[ls.length - 1]? = some (ls.getLastD ⟨"", ""⟩) := by
      rw [List.getLastD_eq_getLast?, List.getLast?_eq_getElem?]
      rw [List.getElem?_eq_getElem (by omega)]
      simp
    rw [hl2] at h8
    intro hcontra
    have hu := countP_le_one_unique (fun l => decide (l.Name = t)) ls hc i (ls.length - 1)
      li l (by omega) hli h8 (by simp [hname])
    rw [decide_eq_false_iff_not] at hu
    exact hu hcontra
  · rw [List.getElem?_set_ne hin] at hn
    intro hcontra
    have hu := countP_le_one_unique (fun l => decide (l.Name = t)) ls hc i n
      li l hin hli hn (by simp [hname])
    rw [decide_eq_false_iff_not] at hu
    exact hu hcontra

/-- Claim C3 as stated is false on the code: with removal enabled, a series
whose tenant label has an empty value keeps all its labels (the code
returns the default tenant before removing anything), and a series with two
labels of the tenant name still carries one after the swap-with-last
removal of the first. -/
theorem label_removal_claim_false :
    ((Config.mk (TenantCfg.mk "tenant" "X-Scope-OrgID" "deflt" true) "target").Tenant.LabelRemove
        = true
      ∧ (∃ l ∈ (TimeSeries.mk [Label.mk "tenant" "", Label.mk "job" "api"] []).Labels,
          l.Name = "tenant")
      ∧ (processTimeseries (Config.mk (TenantCfg.mk "tenant" "X-Scope-OrgID" "deflt" true) "target")
            (TimeSeries.mk [Label.mk "tenant" "", Label.mk "job" "api"] [])).2.Labels.length + 1
          ≠ (TimeSeries.mk [Label.mk "tenant" "", Label.mk "job" "api"] []).Labels.length)
    ∧ ((∃ l ∈ (TimeSeries.mk [Label.mk "tenant" "a", Label.mk "tenant" "b"] []).Labels,
          l.Name = "tenant")
      ∧ ∃ l ∈ (processTimeseries
            (Config.mk (TenantCfg.mk "tenant" "X-Scope-OrgID" "deflt" true) "target")
            (TimeSeries.mk [Label.mk "tenant" "a", Label.mk "tenant" "b"] [])).2.Labels,
          l.Name = "tenant") := by
  decide

/-- Claim C3 (amended): with removal disabled the series is unchanged; with
removal enabled, whenever the first label carrying the configured tenant
label name has a non-empty value the series ends with exactly one fewer
label, and if at most one label carries that name, the result has no label
of that name. -/
theorem label_removal_semantics (cfg : Config) (ts : TimeSeries) :
    (cfg.Tenant.LabelRemove = false → (processTimeseries cfg ts).2 = ts)
    ∧ (∀ i v, findLabel cfg.Tenant.Label ts.Labels = some (i, v) → v ≠ "" →
        cfg.Tenant.LabelRemove = true →
        ((processTimeseries cfg ts).2.Labels.length + 1 = ts.Labels.length
          ∧ (ts.Labels.countP (fun l => decide (l.Name = cfg.Tenant.Label)) ≤ 1 →
              ∀ l ∈ (processTimeseries cfg ts).2.Labels, l.Name ≠ cfg.Tenant.Label))) := by
  constructor
  · intro hoff
    unfold processTimeseries
    cases hf : findLabel cfg.Tenant.Label ts.Labels with
    | none => rfl
    | some p =>
      obtain ⟨i, v⟩ := p
      by_cases hv : v = ""
      · simp [hv]
      · simp [hv, hoff]
  · intro i v hf hv hrem
    have hproc : (processTimeseries cfg ts).2
        = TimeSeries.mk (removeLabelAt ts.Labels i) ts.Samples := by
      unfold processTimeseries
      rw [hf]
      simp [hv, hrem]
    obtain ⟨li, hli, hnm, _⟩ := findLabel_some_getElem cfg.Tenant.Label ts.Labels i v hf
    have hilen : i < ts.Labels.length := by
      rcases List.getElem?_eq_some_iff.mp hli with ⟨h, _⟩
      exact h
    constructor
    · rw [hproc]
      have := removeLabelAt_length ts.Labels i
      simp only [this]
      omega
    · intro hcount
      rw [hproc]
      exact removeLabelAt_no_match ts.Labels i cfg.Tenant.Label li hli hnm hcount

/-- Witness for the amended C3 at concrete inputs: removal enabled with a
non-empty tenant value drops exactly one label and leaves no tenant label;
removal disabled leaves the series unchanged. -/
theorem label_removal_semantics_witness :
    ((processTimeseries (Config.mk (TenantCfg.mk "tenant" "X-Scope-OrgID" "deflt" true) "target")
        (TimeSeries.mk [Label.mk "tenant" "acme", Label.mk "job" "api"] [])).2.Labels.length + 1
      = (TimeSeries.mk [Label.mk "tenant" "acme", Label.mk "job" "api"] []).Labels.length
      ∧ ∀ l ∈ (processTimeseries
          (Config.mk (TenantCfg.mk "tenant" "X-Scope-OrgID" "deflt" true) "target")
          (TimeSeries.mk [Label.mk "tenant" "acme", Label.mk "job" "api"] [])).2.Labels,
          l.Name ≠ "tenant")
    ∧ (processTimeseries (Config.mk (TenantCfg.mk "tenant" "X-Scope-OrgID" "deflt" false) "target")
        (TimeSeries.mk [Label.mk "tenant" "acme", Label.mk "job" "api"] [])).2
      = TimeSeries.mk [Label.mk "tenant" "acme", Label.mk "job" "api"] [] := by
  have h1 := label_removal_semantics
    (Config.mk (TenantCfg.mk "tenant" "X-Scope-OrgID" "deflt" true) "target")
    (TimeSeries.mk [Label.mk "tenant" "acme", Label.mk "job" "api"] [])
  have h2 := label_removal_semantics
    (Config.mk (TenantCfg.mk "tenant" "X-Scope-OrgID" "deflt" false) "target")
    (TimeSeries.mk [Label.mk "tenant" "acme", Label.mk "job" "api"] [])
  refine ⟨⟨?_, ?_⟩, h2.1 rfl⟩
  · exact (h1.2 0 "acme" (by decide) (by decide) rfl).1
  · exact (h1.2 0 "acme" (by decide) (by decide) rfl).2 (by decide)

/-- Go-map insertion for the per-tenant partition map in handle: look the
tenant up; on a miss create a fresh empty WriteRequest for it; append the
series to the request of that tenant. The Go map is modelled as an association
list with distinct keys. -/
def addToPartition : List (String × WriteRequest) → String → TimeSeries →
    List (String × WriteRequest)
  | [], tenant, ts => [(tenant, WriteRequest.mk [ts])]
  | e :: rest, tenant, ts =>
    if e.1 = tenant then (e.1, WriteRequest.mk (e.2.Timeseries ++ [ts])) :: rest
    else e :: addToPartition rest tenant ts

/-- One iteration of the partitioning loop in handle: classify the series
(mutating it if the tenant label is removed) and add it to the partition
of its tenant. -/
def partitionStep (cfg : Config) (m : List (String × WriteRequest)) (ts : TimeSeries) :
    List (String × WriteRequest) :=
  addToPartition m (processTimeseries cfg ts).1 (processTimeseries cfg ts).2

/-- The partitioning loop of handle over the inbound series sequence. -/
def makePartitions (cfg : Config) (l : List TimeSeries) : List (String × WriteRequest) :=
  l.foldl (partitionStep cfg) []

/-- Lookup of the series of one tenant in the partition map, empty when the
tenant is absent. -/
def partGet : List (String × WriteRequest) → String → List TimeSeries
  | [], _ => []
  | e :: rest, k => if e.1 = k then e.2.Timeseries else partGet rest k

/-- Concatenation of the series of all partitions, in map order. -/
def flatSeries : List (String × WriteRequest) → List TimeSeries
  | [] => []
  | e :: rest => e.2.Timeseries ++ flatSeries rest

theorem partGet_addToPartition (m : List (String × WriteRequest)) (t : String)
    (ts : TimeSeries) (k : String) :
    partGet (addToPartition m t ts) k
      = if k = t then partGet m k ++ [ts] else partGet m k := by
  induction m with
  | nil =>
    by_cases hk : k = t
    · subst hk; simp [addToPartition, partGet]
    · simp [addToPartition, partGet, hk, Ne.symm hk]
  | cons e rest ih =>
    by_cases h0 : e.1 = t
    · simp only [addToPartition, if_pos h0]
      by_cases hk : e.1 = k
      · have hkt : k = t := hk.symm.trans h0
        simp [partGet, hk, hkt]
      · have hkt : ¬k = t := fun h => hk (h0.trans h.symm)
        simp [partGet, hk, hkt]
    · simp only [addToPartition, if_neg h0]
      by_cases hk : e.1 = k
      · have hkt : ¬k = t := fun h => h0 (hk.trans h)
        simp [partGet, hk, hkt]
      · simp [partGet, hk, ih]

theorem mem_keys_addToPartition (m : List (String × WriteRequest)) (t : String)
    (ts : TimeSeries) (x : String)
    (h : x ∈ (addToPartition m t ts).map Prod.fst) :
    x ∈ m.map Prod.fst ∨ x = t := by
  induction m with
  | nil =>
    simp [addToPartition] at h
    exact Or.inr h
  | cons e rest ih =>
    by_cases h0 : e.1 = t
    · simp only [addToPartition, if_pos h0] at h
      simp only [List.map_cons, List.mem_cons] at h ⊢
      exact Or.inl h
    · simp only [addToPartition, if_neg h0] at h
      simp only [List.map_cons, List.mem_cons] at h ⊢
      rcases h with h | h
      · exact Or.inl (Or.inl h)
      · rcases ih h with h2 | h2
        · exact Or.inl (Or.inr h2)
        · exact Or.inr h2

theorem keys_nodup_addToPartition (m : List (String × WriteRequest)) (t : String)
    (ts : TimeSeries) (h : (m.map Prod.fst).Nodup) :
    ((addToPartition m t ts).map Prod.fst).Nodup := by
  induction m with
  | nil => simp [addToPartition]
  | cons e rest ih =>
    simp only [List.map_cons, List.nodup_cons] at h
    obtain ⟨hk0, hrest⟩ := h
    by_cases h0 : e.1 = t
    · simp only [addToPartition, if_pos h0, List.map_cons, List.nodup_cons]
      exact ⟨hk0, hrest⟩
    · simp only [addToPartition, if_neg h0, List.map_cons, List.nodup_cons]
      refine ⟨?_, ih hrest⟩
      intro hmem
      rcases mem_keys_addToPartition rest t ts e.1 hmem with h2 | h2
      · exact hk0 h2
      · exact h0 h2

theorem flatSeries_addToPartition (m : List (String × WriteRequest)) (t : String)
    (ts : TimeSeries) :
    (flatSeries (addToPartition m t ts)).Perm (ts :: flatSeries m) := by
  induction m with
  | nil => simp [addToPartition, flatSeries]
  | cons e rest ih =>
    by_cases h0 : e.1 = t
    · simp only [addToPartition, if_pos h0, flatSeries]
      rw [List.append_assoc]
      simp only [List.singleton_append]
      exact List.perm_middle
    · simp only [addToPartition, if_neg h0, flatSeries]
      exact (List.Perm.append_left _ ih).trans List.perm_middle

theorem partGet_foldl (cfg : Config) (l : List TimeSeries) :
    ∀ (m : List (String × WriteRequest)) (k : String),
      partGet (l.foldl (partitionStep cfg) m) k
        = partGet m k
          ++ ((l.map (processTimeseries cfg)).filter (fun p => decide (p.1 = k))).map
              Prod.snd := by
  induction l with
  | nil => intro m k; simp
  | cons ts rest ih =>
    intro m k
    rw [List.foldl_cons, ih]
    have hstep : partGet (partitionStep cfg m ts) k
        = if k = (processTimeseries cfg ts).1 then
            partGet m k ++ [(processTimeseries cfg ts).2]
          else partGet m k :=
      partGet_addToPartition m (processTimeseries cfg ts).1 (processTimeseries cfg ts).2 k
    by_cases hkt : (processTimeseries cfg ts).1 = k
    · rw [hstep, if_pos hkt.symm]
      simp [hkt, List.filter_cons]
    · rw [hstep, if_neg (fun h => hkt h.symm)]
      simp [hkt, List.filter_cons]

theorem keys_nodup_foldl (cfg : Config) (l : List TimeSeries) :
    ∀ (m : List (String × WriteRequest)), (m.map Prod.fst).Nodup →
      ((l.foldl (partitionStep cfg) m).map Prod.fst).Nodup := by
  induction l with
  | nil => intro m h; simpa using h
  | cons ts rest ih =>
    intro m h
    rw [List.foldl_cons]
    exact ih _ (keys_nodup_addToPartition m _ _ h)

theorem flatSeries_foldl (cfg : Config) (l : List TimeSeries) :
    ∀ (m : List (String × WriteRequest)),
      (flatSeries (l.foldl (partitionStep cfg) m)).Perm
        (flatSeries m ++ l.map (fun ts => (processTimeseries cfg ts).2)) := by
  induction l with
  | nil => intro m; simp
  | cons ts rest ih =>
    intro m
    rw [List.foldl_cons]
    simp only [List.map_cons]
    have h2 : (flatSeries (partitionStep cfg m ts)).Perm
        ((processTimeseries cfg ts).2 :: flatSeries m) :=
      flatSeries_addToPartition m (processTimeseries cfg ts).1 (processTimeseries cfg ts).2
    exact (ih _).trans ((h2.append_right _).trans List.perm_middle.symm)

/-- Claim C1: the partitioning loop assigns every input series to exactly
one tenant partition. Each partition is exactly the subsequence of
the (processed, in-place mutated) input series whose tenant key is that
tenant, in input order (stability); the tenant keys of the map are
pairwise distinct; and the series of all partitions together are a
permutation of the input series sequence, so each series lands exactly
once across all partitions. -/
theorem partition_complete_stable (cfg : Config) (l : List TimeSeries) :
    (∀ k, partGet (makePartitions cfg l) k
        = ((l.map (processTimeseries cfg)).filter (fun p => decide (p.1 = k))).map Prod.snd)
    ∧ ((makePartitions cfg l).map Prod.fst).Nodup
    ∧ (flatSeries (makePartitions cfg l)).Perm
        (l.map (fun ts => (processTimeseries cfg ts).2)) := by
  refine ⟨?_, ?_, ?_⟩
  · intro k
    have h := partGet_foldl cfg l [] k
    simpa [makePartitions, partGet] using h
  · exact keys_nodup_foldl cfg l [] (by simp)
  · have h := flatSeries_foldl cfg l []
    simpa [makePartitions, flatSeries] using h

/-- One iteration of the result-collection loop of handle: a transport
error overwrites err (so the last one wins), and a non-2xx HTTP result is
kept only when none was kept before (the res.code == 0 guard). -/
def aggStep (st : Option String × result) (r : result) : Option String × result :=
  match r.err with
  | some e => (some e, st.2)
  | none =>
    if r.code < 200 ∨ r.code > 299 then
      (st.1, if st.2.code = 0 then r else st.2)
    else (st.1, st.2)

/-- The client-facing (status, body) computed at the end of handle: a
transport error yields 500 with the error text, else a recorded non-2xx
result has its code and body passed through, else the fasthttp default of
200 with an empty body. -/
def clientResponse (results : List result) : Nat × String :=
  match (results.foldl aggStep (none, result.mk 0 "" none)).1 with
  | some msg => (500, msg)
  | none =>
    if (results.foldl aggStep (none, result.mk 0 "" none)).2.code ≠ 0 then
      ((results.foldl aggStep (none, result.mk 0 "" none)).2.code,
        (results.foldl aggStep (none, result.mk 0 "" none)).2.body)
    else (200, "")

/-- The non-2xx test of the loop (r.code < 200 || r.code > 299). -/
def isNon2xx (r : result) : Bool := decide (r.code < 200 ∨ r.code > 299)

theorem aggStep_fold_err_none (rs : List result) :
    ∀ (st : Option String × result), (∀ r ∈ rs, r.err = none) →
      (rs.foldl aggStep st).1 = st.1 := by
  induction rs with
  | nil => intro st _; rfl
  | cons r rest ih =>
    intro st hall
    rw [List.foldl_cons]
    have hr : r.err = none := hall r (List.mem_cons_self r rest)
    have hrest : ∀ x ∈ rest, x.err = none := fun x hx => hall x (List.mem_cons_of_mem r hx)
    rw [ih _ hrest]
    simp only [aggStep, hr]
    split <;> rfl

theorem aggStep_fold_res_stable (rs : List result) :
    ∀ (st : Option String × result), st.2.code ≠ 0 →
      (rs.foldl aggStep st).2 = st.2 := by
  induction rs with
  | nil => intro st _; rfl
  | cons r rest ih =>
    intro st hst
    rw [List.foldl_cons]
    have h2 : (aggStep st r).2 = st.2 := by
      cases hre : r.err with
      | some e => simp [aggStep, hre]
      | none => simp [aggStep, hre, hst]
    rw [ih _ (by rw [h2]; exact hst)]
    exact h2

theorem aggStep_fold_first (rs : List result) :
    ∀ (st : Option String × result), st.2.code = 0 →
      (∀ r ∈ rs, r.err = none) → (∀ r ∈ rs, r.code ≠ 0) →
      (rs.foldl aggStep st).2
        = match rs.find? isNon2xx with
          | some r0 => r0
          | none => st.2 := by
  induction rs with
  | nil => intro st _ _ _; rfl
  | cons r rest ih =>
    intro st h0 hall hcode
    rw [List.foldl_cons]
    have hr : r.err = none := hall r (List.mem_cons_self r rest)
    have hrest : ∀ x ∈ rest, x.err = none := fun x hx => hall x (List.mem_cons_of_mem r hx)
    have hcrest : ∀ x ∈ rest, x.code ≠ 0 := fun x hx => hcode x (List.mem_cons_of_mem r hx)
    by_cases hn : r.code < 200 ∨ r.code > 299
    · have hstep : aggStep st r = (st.1, r) := by simp [aggStep, hr, h0, hn]
      rw [hstep]
      rw [aggStep_fold_res_stable rest _ (hcode r (List.mem_cons_self r rest))]
      rw [List.find?_cons_of_pos rest (by simpa [isNon2xx] using hn)]
    · have hstep : aggStep st r = st := by simp [aggStep, hr, hn]
      rw [hstep]
      rw [ih st h0 hrest hcrest]
      rw [List.find?_cons_of_neg rest (by simpa [isNon2xx] using hn)]

theorem aggStep_fold_err_some (rs : List result) :
    ∀ (st : Option String × result), (∃ r ∈ rs, r.err ≠ none) →
      ∃ msg, (rs.foldl aggStep st).1 = some msg ∧ ∃ r ∈ rs, r.err = some msg := by
  induction rs with
  | nil => intro st h; simp at h
  | cons r rest ih =>
    intro st hex
    rw [List.foldl_cons]
    by_cases hrest : ∃ x ∈ rest, x.err ≠ none
    · obtain ⟨msg, hm, x, hx, hxe⟩ := ih (aggStep st r) hrest
      exact ⟨msg, hm, x, List.mem_cons_of_mem r hx, hxe⟩
    · have hallrest : ∀ x ∈ rest, x.err = none := by
        intro x hx
        by_contra hc
        exact hrest ⟨x, hx, hc⟩
      have hr : r.err ≠ none := by
        rcases hex with ⟨y, hy, hye⟩
        rcases List.mem_cons.mp hy with hh | hy2
        · subst hh; exact hye
        · exact absurd (hallrest y hy2) hye
      cases hre : r.err with
      | none => exact absurd hre hr
      | some e =>
        have hstep : (aggStep st r).1 = some e := by simp [aggStep, hre]
        rw [aggStep_fold_err_none rest _ hallrest, hstep]
        exact ⟨e, rfl, r, List.mem_cons_self r rest, hre⟩

/-- Claim C2: over the per-tenant dispatch results of one request, the
client response follows the precedence transport error (500 with the
message of the error, the surfaced one being among those occurring), then
first non-2xx result in iteration order (its status and body), else 200
with empty body. The hypothesis reflects the send invariant that an
error-free result carries a real HTTP status, never 0. -/
theorem aggregation_precedence (rs : List result)
    (hcode : ∀ r ∈ rs, r.err = none → r.code ≠ 0) :
    ((∃ r ∈ rs, r.err ≠ none) →
        (clientResponse rs).1 = 500 ∧ ∃ r ∈ rs, r.err = some (clientResponse rs).2)
    ∧ ((∀ r ∈ rs, r.err = none) →
        (∀ r0, rs.find? isNon2xx = some r0 → clientResponse rs = (r0.code, r0.body))
        ∧ (rs.find? isNon2xx = none → clientResponse rs = (200, ""))) := by
  constructor
  · intro hex
    obtain ⟨msg, hm, r, hr, hre⟩ :=
      aggStep_fold_err_some rs (none, result.mk 0 "" none) hex
    have hcr : clientResponse rs = (500, msg) := by
      unfold clientResponse
      rw [hm]
    rw [hcr]
    exact ⟨rfl, r, hr, hre⟩
  · intro hall
    have h1 : (rs.foldl aggStep (none, result.mk 0 "" none)).1 = none :=
      aggStep_fold_err_none rs _ hall
    have hcode2 : ∀ r ∈ rs, r.code ≠ 0 := fun r hr => hcode r hr (hall r hr)
    constructor
    · intro r0 hf
      have hmem : r0 ∈ rs := List.mem_of_find?_eq_some hf
      have h2 : (rs.foldl aggStep (none, result.mk 0 "" none)).2 = r0 := by
        rw [aggStep_fold_first rs _ rfl hall hcode2, hf]
      unfold clientResponse
      rw [h1, h2, if_pos (hcode2 r0 hmem)]
    · intro hf
      have h2 : (rs.foldl aggStep (none, result.mk 0 "" none)).2 = result.mk 0 "" none := by
        rw [aggStep_fold_first rs _ rfl hall hcode2, hf]
      unfold clientResponse
      rw [h1, h2]
      simp

/-- Witness for C2 on concrete result lists: a transport error yields 500
carrying its message; a 503 after a 200 is passed through ahead of a later
500; all-2xx yields 200 with empty body. -/
theorem aggregation_precedence_witness :
    ((clientResponse [result.mk 0 "" (some "connection refused"), result.mk 200 "" none]).1
        = 500
      ∧ ∃ r ∈ [result.mk 0 "" (some "connection refused"), result.mk 200 "" none],
          r.err = some (clientResponse
            [result.mk 0 "" (some "connection refused"), result.mk 200 "" none]).2)
    ∧ clientResponse
        [result.mk 200 "" none, result.mk 503 "no ingesters" none, result.mk 500 "oops" none]
        = (503, "no ingesters")
    ∧ clientResponse [result.mk 200 "" none, result.mk 204 "" none] = (200, "") := by
  refine ⟨?_, ?_, ?_⟩
  · exact (aggregation_precedence
      [result.mk 0 "" (some "connection refused"), result.mk 200 "" none]
      (by decide)).1 (by decide)
  · exact (aggregation_precedence
      [result.mk 200 "" none, result.mk 503 "no ingesters" none, result.mk 500 "oops" none]
      (by decide)).2 (by decide) |>.1 (result.mk 503 "no ingesters" none) (by decide)
  · exact (aggregation_precedence [result.mk 200 "" none, result.mk 204 "" none]
      (by decide)).2 (by decide) |>.2 (by decide)

/-- The outbound HTTP request built by send. -/
structure OutboundReq where
  method : String
  headers : List (String × String)
  uri : String
  body : String
deriving DecidableEq

/-- The inbound request surface that handle reads: method, path, body. -/
structure InboundReq where
  method : String
  path : String
  body : String

/-- A buffer-pool event: a sync.Pool Get or Put. -/
inductive BufOp
  | get
  | put
deriving DecidableEq

/-- The observable outcome of one send call: its result triple, the
outbound requests issued, and its buffer-pool events (two Gets at entry
and two deferred Puts on every exit path). -/
structure SendOutcome where
  res : result
  calls : List OutboundReq
  bufOps : List BufOp

/-- The outbound request assembled by send: POST to the target with the
content-framing, protocol-version, correlation and tenant headers. -/
def buildReq (cfg : Config) (ip reqID tenant body : String) : OutboundReq :=
  OutboundReq.mk "POST"
    [("Content-Encoding", "snappy"), ("Content-Type", "application/x-protobuf"),
      ("X-Prometheus-Remote-Write-Version", "0.1.0"), ("X-Cortex-Tenant-Src", ip),
      ("X-Cortex-Tenant-ReqID", reqID), (cfg.Tenant.Header, tenant)]
    cfg.Target body

/-- Embedding of send: marshal the partition, compress it (the Go code
checks a stale err after snappy.Encode, which never fails, so compression
is total), perform the outbound call, copy out status and body. A marshal
failure or transport failure yields code 0 with the error; the buffer
leases are released by defer on every path. -/
def send (cfg : Config) (marshal : WriteRequest → Except String String)
    (compress : String → String)
    (httpDo : OutboundReq → Except String (Nat × String))
    (ip reqID tenant : String) (wr : WriteRequest) : SendOutcome :=
  match marshal wr with
  | .error e =>
    SendOutcome.mk (result.mk 0 "" (some e)) [] [.get, .get, .put, .put]
  | .ok ser =>
    match httpDo (buildReq cfg ip reqID tenant (compress ser)) with
    | .error e =>
      SendOutcome.mk (result.mk 0 "" (some e))
        [buildReq cfg ip reqID tenant (compress ser)] [.get, .get, .put, .put]
    | .ok pr =>
      SendOutcome.mk (result.mk pr.1 pr.2 none)
        [buildReq cfg ip reqID tenant (compress ser)] [.get, .get, .put, .put]

/-- Embedding of dispatch: one send per tenant partition; the goroutine
for entry i stores its outcome at index i and the WaitGroup join returns
the fully populated sequence. -/
def dispatch (sendFn : String → WriteRequest → SendOutcome)
    (m : List (String × WriteRequest)) : List SendOutcome :=
  m.map (fun e => sendFn e.1 e.2)

/-- Concatenation of the outbound calls of a sequence of send outcomes. -/
def flatCalls : List SendOutcome → List OutboundReq
  | [] => []
  | s :: rest => s.calls ++ flatCalls rest

/-- Concatenation of the buffer events of a sequence of send outcomes. -/
def flatBufOps : List SendOutcome → List BufOp
  | [] => []
  | s :: rest => s.bufOps ++ flatBufOps rest

/-- The observable outcome of one handle call: client status and body, the
outbound calls made, and the buffer-pool events. -/
structure HandleOutcome where
  status : Nat
  body : String
  calls : List OutboundReq
  bufOps : List BufOp

/-- Embedding of handle: the /alive probe (reading the draining flag),
method and path checks, snappy+protobuf decode into a pooled buffer,
partitioning, dispatch, and aggregation of the results into the client
response. The fasthttp default of 200 with empty body applies when
nothing is set. -/
def handle (cfg : Config) (snappyDecode : String → Except String String)
    (protoUnmarshal : String → Except String WriteRequest)
    (marshal : WriteRequest → Except String String)
    (compress : String → String)
    (httpDo : OutboundReq → Except String (Nat × String))
    (ip reqID : String) (shuttingDown : Nat) (ctx : InboundReq) : HandleOutcome :=
  if ctx.path = "/alive" then
    HandleOutcome.mk (if shuttingDown = 1 then 503 else 200) "" [] []
  else if ctx.method ≠ "POST" then
    HandleOutcome.mk 400 "Expecting POST" [] []
  else if ctx.path ≠ "/push" then
    HandleOutcome.mk 404 "Unknown URL" [] []
  else
    match snappyDecode ctx.body with
    | .error e => HandleOutcome.mk 400 ("Unable to unpack Snappy: " ++ e) [] [.get, .put]
    | .ok decoded =>
      match protoUnmarshal decoded with
      | .error e =>
        HandleOutcome.mk 400 ("Unable to unmarshal protobuf: " ++ e) [] [.get, .put]
      | .ok wrReqIn =>
        HandleOutcome.mk
          (clientResponse ((dispatch (send cfg marshal compress httpDo ip reqID)
              (makePartitions cfg wrReqIn.Timeseries)).map SendOutcome.res)).1
          (clientResponse ((dispatch (send cfg marshal compress httpDo ip reqID)
              (makePartitions cfg wrReqIn.Timeseries)).map SendOutcome.res)).2
          (flatCalls (dispatch (send cfg marshal compress httpDo ip reqID)
              (makePartitions cfg wrReqIn.Timeseries)))
          (BufOp.get :: (flatBufOps (dispatch (send cfg marshal compress httpDo ip reqID)
              (makePartitions cfg wrReqIn.Timeseries)) ++ [BufOp.put]))

/-- The operations on the process-wide state: close (shutdown initiation,
which atomically stores 1 into shuttingDown) and serving a request, which
only reads the flag. -/
inductive ProcOp
  | close
  | serve
deriving DecidableEq

/-- Effect of one operation on the shuttingDown flag. -/
def stepFlag (flag : Nat) : ProcOp → Nat
  | .close => 1
  | .serve => flag

/-- The shuttingDown flag after a trace of operations, starting from the
Go zero value 0. -/
def flagAfter (ops : List ProcOp) : Nat := ops.foldl stepFlag 0

theorem foldl_stepFlag (ops : List ProcOp) :
    ∀ f : Nat, ops.foldl stepFlag f = if ProcOp.close ∈ ops then 1 else f := by
  induction ops with
  | nil => intro f; simp
  | cons op rest ih =>
    intro f
    rw [List.foldl_cons, ih]
    cases op with
    | close => simp [stepFlag]
    | serve => simp [stepFlag, List.mem_cons]

/-- Claim C7: the draining flag starts at 0, is 1 exactly after a close
has occurred in the trace (set once, never reset), and the /alive probe
(any method) answers 200 while no close has happened and 503 on every
invocation after one has. -/
theorem draining_lifecycle (cfg : Config)
    (snappyDecode : String → Except String String)
    (protoUnmarshal : String → Except String WriteRequest)
    (marshal : WriteRequest → Except String String)
    (compress : String → String)
    (httpDo : OutboundReq → Except String (Nat × String))
    (ip reqID method bd : String) :
    flagAfter [] = 0
    ∧ (∀ ops, flagAfter ops = if ProcOp.close ∈ ops then 1 else 0)
    ∧ (∀ ops,
        (handle cfg snappyDecode protoUnmarshal marshal compress httpDo ip reqID
          (flagAfter ops) (InboundReq.mk method "/alive" bd)).status
        = if ProcOp.close ∈ ops then 503 else 200) := by
  refine ⟨rfl, ?_, ?_⟩
  · intro ops
    exact foldl_stepFlag ops 0
  · intro ops
    have hflag : flagAfter ops = if ProcOp.close ∈ ops then 1 else 0 := foldl_stepFlag ops 0
    by_cases hc : ProcOp.close ∈ ops
    · simp [handle, hflag, hc]
    · simp [handle, hflag, hc]

/-- Claim C4: an inbound POST /push whose body fails snappy decoding, or
whose decoded bytes fail protobuf unmarshalling, is answered with 400 and
a plain-text message, and no outbound downstream call is made. -/
theorem decode_failure_400_no_calls (cfg : Config)
    (sd : String → Except String String) (pu : String → Except String WriteRequest)
    (ma : WriteRequest → Except String String) (co : String → String)
    (hd : OutboundReq → Except String (Nat × String))
    (ip reqID : String) (flag : Nat) (ctx : InboundReq)
    (hm : ctx.method = "POST") (hp : ctx.path = "/push") :
    (∀ e, sd ctx.body = Except.error e →
        (handle cfg sd pu ma co hd ip reqID flag ctx).status = 400
        ∧ (handle cfg sd pu ma co hd ip reqID flag ctx).body
            = "Unable to unpack Snappy: " ++ e
        ∧ (handle cfg sd pu ma co hd ip reqID flag ctx).calls = [])
    ∧ (∀ d e, sd ctx.body = Except.ok d → pu d = Except.error e →
        (handle cfg sd pu ma co hd ip reqID flag ctx).status = 400
        ∧ (handle cfg sd pu ma co hd ip reqID flag ctx).body
            = "Unable to unmarshal protobuf: " ++ e
        ∧ (handle cfg sd pu ma co hd ip reqID flag ctx).calls = []) := by
  constructor
  · intro e hsd
    simp [handle, hm, hp, hsd]
  · intro d e hsd hpu
    simp [handle, hm, hp, hsd, hpu]

/-- Witness for C4: concrete requests whose snappy decoding (first) or
protobuf unmarshalling (second) fails are answered 400 with the plain-text
message, and no outbound call is made. -/
theorem decode_failure_400_no_calls_witness :
    ((handle (Config.mk (TenantCfg.mk "tenant" "X-Scope-OrgID" "deflt" false) "http://t")
        (fun _ => Except.error "corrupt") (fun _ => Except.ok (WriteRequest.mk []))
        (fun _ => Except.ok "") (fun s => s) (fun _ => Except.ok (200, ""))
        "1.2.3.4" "req-1" 0 (InboundReq.mk "POST" "/push" "junk")).status = 400
      ∧ (handle (Config.mk (TenantCfg.mk "tenant" "X-Scope-OrgID" "deflt" false) "http://t")
        (fun _ => Except.error "corrupt") (fun _ => Except.ok (WriteRequest.mk []))
        (fun _ => Except.ok "") (fun s => s) (fun _ => Except.ok (200, ""))
        "1.2.3.4" "req-1" 0 (InboundReq.mk "POST" "/push" "junk")).body
          = "Unable to unpack Snappy: corrupt"
      ∧ (handle (Config.mk (TenantCfg.mk "tenant" "X-Scope-OrgID" "deflt" false) "http://t")
        (fun _ => Except.error "corrupt") (fun _ => Except.ok (WriteRequest.mk []))
        (fun _ => Except.ok "") (fun s => s) (fun _ => Except.ok (200, ""))
        "1.2.3.4" "req-1" 0 (InboundReq.mk "POST" "/push" "junk")).calls = [])
    ∧ ((handle (Config.mk (TenantCfg.mk "tenant" "X-Scope-OrgID" "deflt" false) "http://t")
        (fun _ => Except.ok "decoded") (fun _ => Except.error "bad wire type")
        (fun _ => Except.ok "") (fun s => s) (fun _ => Except.ok (200, ""))
        "1.2.3.4" "req-1" 0 (InboundReq.mk "POST" "/push" "junk")).status = 400
      ∧ (handle (Config.mk (TenantCfg.mk "tenant" "X-Scope-OrgID" "deflt" false) "http://t")
        (fun _ => Except.ok "decoded") (fun _ => Except.error "bad wire type")
        (fun _ => Except.ok "") (fun s => s) (fun _ => Except.ok (200, ""))
        "1.2.3.4" "req-1" 0 (InboundReq.mk "POST" "/push" "junk")).body
          = "Unable to unmarshal protobuf: bad wire type"
      ∧ (handle (Config.mk (TenantCfg.mk "tenant" "X-Scope-OrgID" "deflt" false) "http://t")
        (fun _ => Except.ok "decoded") (fun _ => Except.error "bad wire type")
        (fun _ => Except.ok "") (fun s => s) (fun _ => Except.ok (200, ""))
        "1.2.3.4" "req-1" 0 (InboundReq.mk "POST" "/push" "junk")).calls = []) := by
  constructor
  · exact (decode_failure_400_no_calls
      (Config.mk (TenantCfg.mk "tenant" "X-Scope-OrgID" "deflt" false) "http://t")
      (fun _ => Except.error "corrupt") (fun _ => Except.ok (WriteRequest.mk []))
      (fun _ => Except.ok "") (fun s => s) (fun _ => Except.ok (200, ""))
      "1.2.3.4" "req-1" 0 (InboundReq.mk "POST" "/push" "junk") rfl rfl).1 "corrupt" rfl
  · exact (decode_failure_400_no_calls
      (Config.mk (TenantCfg.mk "tenant" "X-Scope-OrgID" "deflt" false) "http://t")
      (fun _ => Except.ok "decoded") (fun _ => Except.error "bad wire type")
      (fun _ => Except.ok "") (fun s => s) (fun _ => Except.ok (200, ""))
      "1.2.3.4" "req-1" 0 (InboundReq.mk "POST" "/push" "junk") rfl rfl).2
      "decoded" "bad wire type" rfl rfl

theorem handle_push (cfg : Config)
    (sd : String → Except String String) (pu : String → Except String WriteRequest)
    (ma : WriteRequest → Except String String) (co : String → String)
    (hd : OutboundReq → Except String (Nat × String))
    (ip reqID : String) (flag : Nat) (ctx : InboundReq)
    (hm : ctx.method = "POST") (hp : ctx.path = "/push")
    (d : String) (wrReqIn : WriteRequest)
    (hsd : sd ctx.body = Except.ok d) (hpu : pu d = Except.ok wrReqIn) :
    handle cfg sd pu ma co hd ip reqID flag ctx
      = HandleOutcome.mk
          (clientResponse ((dispatch (send cfg ma co hd ip reqID)
              (makePartitions cfg wrReqIn.Timeseries)).map SendOutcome.res)).1
          (clientResponse ((dispatch (send cfg ma co hd ip reqID)
              (makePartitions cfg wrReqIn.Timeseries)).map SendOutcome.res)).2
          (flatCalls (dispatch (send cfg ma co hd ip reqID)
              (makePartitions cfg wrReqIn.Timeseries)))
          (BufOp.get :: (flatBufOps (dispatch (send cfg ma co hd ip reqID)
              (makePartitions cfg wrReqIn.Timeseries)) ++ [BufOp.put])) := by
  unfold handle
  rw [hp, hm]
  rw [if_neg (by decide), if_neg (by decide), if_neg (by decide)]
  simp only [hsd, hpu]

theorem addToPartition_ne_nil (m : List (String × WriteRequest)) (t : String)
    (ts : TimeSeries) : addToPartition m t ts ≠ [] := by
  cases m with
  | nil => simp [addToPartition]
  | cons e rest =>
    simp only [addToPartition]
    split <;> simp

theorem foldl_partitionStep_ne_nil (cfg : Config) (l : List TimeSeries) :
    ∀ m, m ≠ [] → l.foldl (partitionStep cfg) m ≠ [] := by
  induction l with
  | nil => intro m h; simpa using h
  | cons ts rest ih =>
    intro m _
    rw [List.foldl_cons]
    exact ih _ (addToPartition_ne_nil m _ _)

theorem makePartitions_ne_nil (cfg : Config) (l : List TimeSeries) (h : l ≠ []) :
    makePartitions cfg l ≠ [] := by
  cases l with
  | nil => exact absurd rfl h
  | cons ts rest =>
    unfold makePartitions
    rw [List.foldl_cons]
    exact foldl_partitionStep_ne_nil cfg rest _ (addToPartition_ne_nil [] _ _)

theorem aggStep_fold_all_err (rs : List result) (msg : String) :
    ∀ st, rs ≠ [] → (∀ r ∈ rs, r.err = some msg) →
      (rs.foldl aggStep st).1 = some msg := by
  induction rs with
  | nil => intro st h _; exact absurd rfl h
  | cons r rest ih =>
    intro st _ hall
    rw [List.foldl_cons]
    have hr : r.err = some msg := hall r (List.mem_cons_self r rest)
    by_cases hrest : rest = []
    · subst hrest
      simp [aggStep, hr]
    · exact ih _ hrest (fun x hx => hall x (List.mem_cons_of_mem r hx))

theorem clientResponse_all_err (rs : List result) (msg : String)
    (hne : rs ≠ []) (hall : ∀ r ∈ rs, r.err = some msg) :
    clientResponse rs = (500, msg) := by
  unfold clientResponse
  rw [aggStep_fold_all_err rs msg _ hne hall]

/-- Claim C5 as stated is false on the code: with a serializer that fails,
a POST /push with one series is answered 500 — the same client-visible
class as transport errors — not the 400 bad-input class that decode
failures receive. -/
theorem encode_failure_claim_false :
    (handle (Config.mk (TenantCfg.mk "tenant" "X-Scope-OrgID" "deflt" false) "http://t")
        (fun b => Except.ok b)
        (fun _ => Except.ok (WriteRequest.mk [TimeSeries.mk [Label.mk "tenant" "a"] []]))
        (fun _ => Except.error "marshal failed") (fun s => s)
        (fun _ => Except.ok (200, ""))
        "1.2.3.4" "req-1" 0 (InboundReq.mk "POST" "/push" "payload")).status = 500
    ∧ ¬((handle (Config.mk (TenantCfg.mk "tenant" "X-Scope-OrgID" "deflt" false) "http://t")
        (fun b => Except.ok b)
        (fun _ => Except.ok (WriteRequest.mk [TimeSeries.mk [Label.mk "tenant" "a"] []]))
        (fun _ => Except.error "marshal failed") (fun s => s)
        (fun _ => Except.ok (200, ""))
        "1.2.3.4" "req-1" 0 (InboundReq.mk "POST" "/push" "payload")).status = 400) := by
  decide

/-- Claim C5 (amended): a serialization failure while forwarding surfaces
to the client as 500 with the error message — the transport-error class —
rather than the 400 bad-input class of decode failures, and no outbound
call is made; a compression failure cannot occur (the code checks a stale
error after snappy.Encode, which returns no error). -/
theorem encode_failure_surfaces_500 (cfg : Config)
    (sd : String → Except String String) (pu : String → Except String WriteRequest)
    (co : String → String) (hd : OutboundReq → Except String (Nat × String))
    (ip reqID : String) (flag : Nat) (ctx : InboundReq) (msg : String)
    (d : String) (wr : WriteRequest)
    (hm : ctx.method = "POST") (hp : ctx.path = "/push")
    (hsd : sd ctx.body = Except.ok d) (hpu : pu d = Except.ok wr)
    (hne : wr.Timeseries ≠ []) :
    (handle cfg sd pu (fun _ => Except.error msg) co hd ip reqID flag ctx).status = 500
    ∧ (handle cfg sd pu (fun _ => Except.error msg) co hd ip reqID flag ctx).body = msg
    ∧ (handle cfg sd pu (fun _ => Except.error msg) co hd ip reqID flag ctx).calls = [] := by
  rw [handle_push cfg sd pu (fun _ => Except.error msg) co hd ip reqID flag ctx hm hp
    d wr hsd hpu]
  have hall : ∀ r ∈ (dispatch (send cfg (fun _ => Except.error msg) co hd ip reqID)
      (makePartitions cfg wr.Timeseries)).map SendOutcome.res, r.err = some msg := by
    intro r hr
    simp only [dispatch, List.map_map, List.mem_map] at hr
    obtain ⟨e, _, he⟩ := hr
    rw [← he]
    rfl
  have hnnil : (dispatch (send cfg (fun _ => Except.error msg) co hd ip reqID)
      (makePartitions cfg wr.Timeseries)).map SendOutcome.res ≠ [] := by
    have h := makePartitions_ne_nil cfg wr.Timeseries hne
    simpa [dispatch] using h
  have hcr := clientResponse_all_err _ msg hnnil hall
  refine ⟨?_, ?_, ?_⟩
  · show (clientResponse _).1 = 500
    rw [hcr]
  · show (clientResponse _).2 = msg
    rw [hcr]
  · show flatCalls _ = []
    have hcalls : ∀ s ∈ dispatch (send cfg (fun _ => Except.error msg) co hd ip reqID)
        (makePartitions cfg wr.Timeseries), s.calls = [] := by
      intro s hs
      simp only [dispatch, List.mem_map] at hs
      obtain ⟨e, _, he⟩ := hs
      rw [← he]
      rfl
    clear hall hnnil hcr
    generalize dispatch (send cfg (fun _ => Except.error msg) co hd ip reqID)
      (makePartitions cfg wr.Timeseries) = ss at hcalls ⊢
    induction ss with
    | nil => rfl
    | cons s rest ih =>
      simp only [flatCalls]
      rw [hcalls s (List.mem_cons_self s rest), ih (fun x hx => hcalls x (List.mem_cons_of_mem s hx))]
      rfl

/-- Witness for the amended C5 at concrete inputs: with a failing
serializer the client receives 500 carrying the message and no outbound
call is made. -/
theorem encode_failure_surfaces_500_witness :
    (handle (Config.mk (TenantCfg.mk "tenant" "X-Scope-OrgID" "deflt" false) "http://t")
        (fun b => Except.ok b)
        (fun _ => Except.ok (WriteRequest.mk [TimeSeries.mk [Label.mk "tenant" "a"] []]))
        (fun _ => Except.error "proto: cannot marshal") (fun s => s)
        (fun _ => Except.ok (200, ""))
        "1.2.3.4" "req-1" 0 (InboundReq.mk "POST" "/push" "payload")).status = 500
    ∧ (handle (Config.mk (TenantCfg.mk "tenant" "X-Scope-OrgID" "deflt" false) "http://t")
        (fun b => Except.ok b)
        (fun _ => Except.ok (WriteRequest.mk [TimeSeries.mk [Label.mk "tenant" "a"] []]))
        (fun _ => Except.error "proto: cannot marshal") (fun s => s)
        (fun _ => Except.ok (200, ""))
        "1.2.3.4" "req-1" 0 (InboundReq.mk "POST" "/push" "payload")).body
      = "proto: cannot marshal"
    ∧ (handle (Config.mk (TenantCfg.mk "tenant" "X-Scope-OrgID" "deflt" false) "http://t")
        (fun b => Except.ok b)
        (fun _ => Except.ok (WriteRequest.mk [TimeSeries.mk [Label.mk "tenant" "a"] []]))
        (fun _ => Except.error "proto: cannot marshal") (fun s => s)
        (fun _ => Except.ok (200, ""))
        "1.2.3.4" "req-1" 0 (InboundReq.mk "POST" "/push" "payload")).calls = [] := by
  exact encode_failure_surfaces_500
    (Config.mk (TenantCfg.mk "tenant" "X-Scope-OrgID" "deflt" false) "http://t")
    (fun b => Except.ok b)
    (fun _ => Except.ok (WriteRequest.mk [TimeSeries.mk [Label.mk "tenant" "a"] []]))
    (fun s => s) (fun _ => Except.ok (200, ""))
    "1.2.3.4" "req-1" 0 (InboundReq.mk "POST" "/push" "payload") "proto: cannot marshal"
    "payload" (WriteRequest.mk [TimeSeries.mk [Label.mk "tenant" "a"] []])
    rfl rfl rfl rfl (by decide)

/-- Claim C8: dispatch produces exactly one result per tenant partition:
on a partition map with pairwise-distinct tenant keys it returns exactly
as many results as there are keys, the i-th being the send outcome of the
i-th partition entry. -/
theorem dispatch_result_cardinality (sendFn : String → WriteRequest → SendOutcome)
    (m : List (String × WriteRequest)) (hnd : (m.map Prod.fst).Nodup) :
    (dispatch sendFn m).length = (m.map Prod.fst).length
    ∧ ∀ i : Nat, (dispatch sendFn m)[i]? = (m[i]?).map (fun e => sendFn e.1 e.2) := by
  constructor
  · simp [dispatch]
  · intro i
    simp [dispatch]

/-- Witness for C8 on a concrete two-tenant partition map. -/
theorem dispatch_result_cardinality_witness :
    (dispatch (fun t _ => SendOutcome.mk (result.mk 200 t none) [] [])
        [("a", WriteRequest.mk []), ("b", WriteRequest.mk [])]).length = 2
    ∧ (dispatch (fun t _ => SendOutcome.mk (result.mk 200 t none) [] [])
        [("a", WriteRequest.mk []), ("b", WriteRequest.mk [])])[1]?
      = some (SendOutcome.mk (result.mk 200 "b" none) [] []) := by
  have h := dispatch_result_cardinality (fun t _ => SendOutcome.mk (result.mk 200 t none) [] [])
    [("a", WriteRequest.mk []), ("b", WriteRequest.mk [])] (by decide)
  exact ⟨h.1, h.2 1⟩

/-- Change of the outstanding-lease count for one buffer-pool event. -/
def bufDelta (n : Int) : BufOp → Int
  | .get => n + 1
  | .put => n - 1

/-- Net effect of a sequence of buffer-pool events on the outstanding
lease count of the pool. -/
def netBuf (ops : List BufOp) : Int := ops.foldl bufDelta 0

theorem foldl_bufDelta_shift (ops : List BufOp) :
    ∀ n : Int, ops.foldl bufDelta n = n + netBuf ops := by
  induction ops with
  | nil => intro n; simp [netBuf]
  | cons op rest ih =>
    intro n
    have hz : netBuf (op :: rest) = bufDelta 0 op + netBuf rest := by
      unfold netBuf
      rw [List.foldl_cons, ih]
      rfl
    rw [List.foldl_cons, ih, hz]
    cases op <;> simp only [bufDelta] <;> omega

theorem netBuf_cons (op : BufOp) (rest : List BufOp) :
    netBuf (op :: rest) = bufDelta 0 op + netBuf rest := by
  unfold netBuf
  rw [List.foldl_cons, foldl_bufDelta_shift]
  rfl

theorem netBuf_append (a b : List BufOp) : netBuf (a ++ b) = netBuf a + netBuf b := by
  unfold netBuf
  rw [List.foldl_append, foldl_bufDelta_shift]
  rfl

theorem send_bufOps (cfg : Config) (ma : WriteRequest → Except String String)
    (co : String → String) (hd : OutboundReq → Except String (Nat × String))
    (ip reqID tenant : String) (wr : WriteRequest) :
    (send cfg ma co hd ip reqID tenant wr).bufOps
      = [BufOp.get, BufOp.get, BufOp.put, BufOp.put] := by
  cases hma : ma wr with
  | error e => simp [send, hma]
  | ok ser =>
    cases hhd : hd (buildReq cfg ip reqID tenant (co ser)) with
    | error e => simp [send, hma, hhd]
    | ok pr => simp [send, hma, hhd]

theorem netBuf_flatBufOps (ss : List SendOutcome)
    (h : ∀ s ∈ ss, s.bufOps = [BufOp.get, BufOp.get, BufOp.put, BufOp.put]) :
    netBuf (flatBufOps ss) = 0 := by
  induction ss with
  | nil => rfl
  | cons s rest ih =>
    simp only [flatBufOps]
    rw [netBuf_append, h s (List.mem_cons_self s rest),
      ih (fun x hx => h x (List.mem_cons_of_mem s hx))]
    rfl

/-- Claim C9: the buffer-pool events of every handle call and every send
call are balanced on every exit path — each Get is matched by its deferred
Put — so the outstanding-lease count of the pool returns to its pre-call value
whatever the outcome. -/
theorem buffer_pool_balanced (cfg : Config)
    (sd : String → Except String String) (pu : String → Except String WriteRequest)
    (ma : WriteRequest → Except String String) (co : String → String)
    (hd : OutboundReq → Except String (Nat × String))
    (ip reqID : String) (flag : Nat) (ctx : InboundReq) (tenant : String)
    (wr : WriteRequest) :
    netBuf (handle cfg sd pu ma co hd ip reqID flag ctx).bufOps = 0
    ∧ netBuf (send cfg ma co hd ip reqID tenant wr).bufOps = 0 := by
  constructor
  · unfold handle
    by_cases h1 : ctx.path = "/alive"
    · rw [if_pos h1]; rfl
    rw [if_neg h1]
    by_cases h2 : ctx.method ≠ "POST"
    · rw [if_pos h2]; rfl
    rw [if_neg h2]
    by_cases h3 : ctx.path ≠ "/push"
    · rw [if_pos h3]; rfl
    rw [if_neg h3]
    cases hsd : sd ctx.body with
    | error e => rfl
    | ok d =>
      cases hpu : pu d with
      | error e =>
        simp only [hpu]
        rfl
      | ok wrIn =>
        simp only [hpu]
        show netBuf (BufOp.get :: (flatBufOps (dispatch (send cfg ma co hd ip reqID)
            (makePartitions cfg wrIn.Timeseries)) ++ [BufOp.put])) = 0
        have h0 : netBuf (flatBufOps (dispatch (send cfg ma co hd ip reqID)
            (makePartitions cfg wrIn.Timeseries))) = 0 := by
          apply netBuf_flatBufOps
          intro s hs
          simp only [dispatch, List.mem_map] at hs
          obtain ⟨e, _, he⟩ := hs
          rw [← he]
          exact send_bufOps cfg ma co hd ip reqID e.1 e.2
        rw [netBuf_cons, netBuf_append, h0]
        rfl
  · rw [send_bufOps cfg ma co hd ip reqID tenant wr]
    rfl

end CortexTenant
